import Mathlib

/-!
# Verification of the pmxbot glossary plugin

A shallow embedding of `glossary/glossary.py`: the SQLite-backed entry store
(`add_entry`, `get_all_records`, `get_entry_data`, `get_all_records_for_entry`,
`get_similar_words`, `search_definitions`) and the command handlers (`define`,
`query`/`whatis`, `search`), together with the helper functions
(`datetime_to_age_str`, `readable_join`, `get_alternative_suggestions`,
`handle_nth_definition`, `handle_random_query`, `handle_search`,
`entry_number_command`).

Modelling conventions:
* Python strings are Lean `String`s; the character-level operations used by the
  code (`lower`, `strip`, `split`, `in`, indexing) are re-implemented below on
  `List Char` with Python semantics (ASCII case folding, as the code only
  relies on ASCII behaviour).
* The SQLite table is a `List Row` in insertion order; the `timestamp` column
  is a `Nat` (epoch seconds) stored in each row.  `ORDER BY timestamp` is a
  stable insertion sort on the timestamp, matching SQLite's observable
  behaviour on this table.
* SQL `LIKE` is modelled faithfully, including its `%`/`_` wildcards and its
  ASCII case-insensitivity (`likeMatches`).
* The process-wide `cache` dict of `SQLiteGlossary` is the `cache` field of
  `Store`; its single key `all_entries` makes it an `Option`.
* Exceptions (`IndexError`, and attribute access on `None`) are modelled with
  `Except Unit`; a `try/except` in the source is an explicit `match`.
* `random.choice` is modelled by threading an oracle index `rand : Nat`.
* `datetime.datetime.utcnow()` is modelled by threading `now : Nat`.
-/

namespace Glossary

/-! ## Python string primitives -/

/-- ASCII lower-casing of one character, as Python `str.lower` does on ASCII:
code points 65–90 (`A`–`Z`) move to 97–122 (`a`–`z`). -/
def pyCharLower (c : Char) : Char :=
  if 65 ≤ c.toNat ∧ c.toNat ≤ 90 then Char.ofNat (c.toNat + 32) else c

/-- Python `str.lower` (ASCII fragment). -/
def pyLower (s : String) : String :=
  ⟨s.data.map pyCharLower⟩

/-- The whitespace characters removed by Python `str.strip()` (ASCII fragment). -/
def pyIsSpace (c : Char) : Bool :=
  c = ' ' ∨ c = '\t' ∨ c = '\n' ∨ c = Char.ofNat 11 ∨ c = Char.ofNat 12 ∨ c = '\r'

/-- Python `str.strip()` on a character list. -/
def pyStripList (l : List Char) : List Char :=
  ((l.dropWhile pyIsSpace).reverse.dropWhile pyIsSpace).reverse

/-- Python `str.strip()`. -/
def pyStrip (s : String) : String :=
  ⟨pyStripList s.data⟩

/-- Does `hay` start with `needle`?  (Helper for the substring test.) -/
def startsWithL : List Char → List Char → Bool
  | [], _ => true
  | _ :: _, [] => false
  | a :: as, b :: bs => a == b && startsWithL as bs

/-- Python `needle in hay` on strings: contiguous substring occurrence. -/
def containsSub : List Char → List Char → Bool
  | needle, [] => needle.isEmpty
  | needle, c :: rest => startsWithL needle (c :: rest) || containsSub needle rest

/-- Python `s.split(d)` for a single-character separator `d`: splits at every
occurrence, keeping empty pieces. -/
def splitChar (c : Char) : List Char → List (List Char)
  | [] => [[]]
  | x :: xs =>
    if x = c then [] :: splitChar c xs
    else
      match splitChar c xs with
      | [] => [[x]]
      | h :: t => (x :: h) :: t

/-- Python `s.split(d)` at the string level. -/
def pySplit (s : String) (c : Char) : List String :=
  (splitChar c s.data).map (fun l => ⟨l⟩)

/-- Python `s.split(':', 1)` when `':' in s`: the text before the first colon
and the text after it. -/
def firstColonSplit (s : String) : String × String :=
  (⟨s.data.takeWhile (fun c => c ≠ ':')⟩, ⟨(s.data.dropWhile (fun c => c ≠ ':')).tail⟩)

/-- Nonempty all-digit strings to a number (helper for `int(...)`). -/
def digitsToNat (l : List Char) : Option Nat :=
  if l.isEmpty then none
  else if l.all Char.isDigit then
    some (l.foldl (fun acc c => acc * 10 + (c.toNat - 48)) 0)
  else none

/-- Python `int(s)` (decimal, optional sign, surrounding whitespace allowed);
`none` models the `ValueError` the source catches.  (Python additionally
accepts underscore digit grouping, which no claim depends on.) -/
def pyParseInt (s : String) : Option Int :=
  match pyStripList s.data with
  | '+' :: rest => (digitsToNat rest).map Int.ofNat
  | '-' :: rest => (digitsToNat rest).map (fun n => -(n : Int))
  | t => (digitsToNat t).map Int.ofNat

/-- `string.punctuation` from the Python standard library. -/
def pyPunctuation : List Char :=
  "!\"#$%&".data ++ [Char.ofNat 39] ++ "()*+,-./:;<=>?@[\\]^_".data
    ++ [Char.ofNat 96] ++ "\x7b|\x7d~".data

/-! ## SQL LIKE -/

/-- One-character case-insensitive comparison used by SQLite `LIKE`
(ASCII case folding). -/
def likeCharEq (p c : Char) : Bool :=
  pyCharLower p == pyCharLower c

/-- SQLite `LIKE` pattern matching: `%` matches any run of zero or more
characters (equivalently, the rest of the pattern matches some suffix of the
string), `_` matches any single character, and every other pattern character
matches case-insensitively (no `ESCAPE` clause is used by the source). -/
def likeMatches : List Char → List Char → Bool
  | [], s => s.isEmpty
  | c :: ps, s =>
    if c = '%' then s.tails.any (fun t => likeMatches ps t)
    else
      match s with
      | [] => false
      | d :: ss => (if c = '_' then true else likeCharEq c d) && likeMatches ps ss

/-! ## Data model

The `glossary` table (`CREATE_GLOSSARY_SQL`): one row per definition, in
insertion order (`entryid AUTOINCREMENT`), with the write-time timestamp. -/

structure Row where
  entry : String
  entry_lower : String
  definition : String
  author : String
  channel : Option String
  ts : Nat
deriving DecidableEq, Inhabited

/-- The `GlossaryRecord` namedtuple
(`entry entry_lower definition author channel datetime index total_count`);
`datetime` is kept as epoch seconds. -/
structure GlossaryRecord where
  entry : String
  entry_lower : String
  definition : String
  author : String
  channel : Option String
  datetime : Nat
  index : Nat
  total_count : Nat
deriving DecidableEq, Inhabited

/-- The state owned by `SQLiteGlossary`: the table plus the class-level
`cache` dict, whose single key `all_entries` makes it an `Option`. -/
structure Store where
  rows : List Row
  cache : Option (List GlossaryRecord)
deriving DecidableEq, Inhabited

/-! ## Orderings used by `ORDER BY` and Python `sorted` -/

/-- Ordering of rows by the `timestamp` column. -/
def tsLe (a b : Row) : Prop := a.ts ≤ b.ts

instance : DecidableRel tsLe := fun a b => inferInstanceAs (Decidable (a.ts ≤ b.ts))

/-- Code-point lexicographic strict order on character lists (Python string
`<`, and SQLite BINARY collation on UTF-8 text). -/
def lexLtL : List Char → List Char → Bool
  | [], [] => false
  | [], _ :: _ => true
  | _ :: _, [] => false
  | a :: as, b :: bs => if a < b then true else if b < a then false else lexLtL as bs

/-- The corresponding non-strict order on strings. -/
def strLe (a b : String) : Prop := lexLtL b.data a.data = false

instance : DecidableRel strLe := fun a b =>
  inferInstanceAs (Decidable (lexLtL b.data a.data = false))

/-- Ordering of records by `entry_lower` (the `entries.sort` in
`get_all_records`). -/
def recLe (a b : GlossaryRecord) : Prop := strLe a.entry_lower b.entry_lower

instance : DecidableRel recLe := fun a b =>
  inferInstanceAs (Decidable (strLe a.entry_lower b.entry_lower))

/-- `ORDER BY timestamp`: a stable sort on the timestamp column.  SQLite
returns equal-timestamp rows of this table in rowid (= insertion) order, which
a stable sort preserves. -/
def sortRowsByTs (rows : List Row) : List Row :=
  List.insertionSort tsLe rows

/-! ## The entry store (`SQLiteGlossary`) -/

/-- The distinct `entry_lower` values of the table (the `GROUP BY entry_lower`
groups).  Order is irrelevant: `get_all_records` re-sorts by `entry_lower`. -/
def groupKeys (rows : List Row) : List String :=
  (rows.map (fun r => r.entry_lower)).dedup

/-- The record `get_all_records` builds for one `GROUP BY entry_lower` group:
the bare columns come from one row of the group (unspecified by SQLite for a
bare-column `GROUP BY`; modelled as the last inserted row of the group),
`COUNT` is the group size, and the namedtuple gets `index = count - 1`,
`total_count = count`. -/
def groupRecord (rows : List Row) (k : String) : GlossaryRecord :=
  let grp := rows.filter (fun r => r.entry_lower == k)
  let rep := grp.getLastD default
  GlossaryRecord.mk rep.entry rep.entry_lower rep.definition rep.author rep.channel
    rep.ts (grp.length - 1) grp.length

/-- The list `get_all_records` computes on a cache miss: one record per
distinct `entry_lower`, sorted by `entry_lower`. -/
def computeAllRecords (rows : List Row) : List GlossaryRecord :=
  List.insertionSort recLe ((groupKeys rows).map (groupRecord rows))

/-- `SQLiteGlossary.get_all_records`: serve the memoized list when present,
else compute it and populate the cache. -/
def get_all_records (st : Store) : List GlossaryRecord × Store :=
  match st.cache with
  | some entries => (entries, st)
  | none =>
    let entries := computeAllRecords st.rows
    (entries, Store.mk st.rows (some entries))

/-- The `for i, row in enumerate(results)` loop of
`get_all_records_for_entry`: annotate each row with its 0-based index and the
total count. -/
def annotateRecords (total : Nat) : Nat → List Row → List GlossaryRecord
  | _, [] => []
  | i, r :: rest =>
    GlossaryRecord.mk r.entry r.entry_lower r.definition r.author r.channel r.ts i total
      :: annotateRecords total (i + 1) rest

/-- `SQLiteGlossary.get_all_records_for_entry`: lower the argument, select the
rows with `entry_lower LIKE ?` (no escaping — the lowered argument is used as
the LIKE pattern verbatim), order by timestamp, and annotate. -/
def get_all_records_for_entry (st : Store) (entry : String) : List GlossaryRecord :=
  let e := pyLower entry
  let results := sortRowsByTs (st.rows.filter (fun r => likeMatches e.data r.entry_lower.data))
  annotateRecords results.length 0 results

/-- `SQLiteGlossary.get_entry_data`: `.error ()` is the `IndexError` raised for
`num < 1` or by the out-of-range list indexing `stored[num - 1]`; `.ok none`
is the `None` returned for an unknown entry. -/
def get_entry_data (st : Store) (entry : String) (num : Option Int) :
    Except Unit (Option GlossaryRecord) :=
  match num with
  | some n =>
    if n < 1 then .error ()
    else
      let stored := get_all_records_for_entry st entry
      if stored.isEmpty then .ok none
      else
        -- `if num:` holds (n ≥ 1), so the source returns `stored[num - 1]`
        if h : (n - 1).toNat < stored.length then .ok (some (stored.get ⟨(n - 1).toNat, h⟩))
        else .error ()
  | none =>
    let stored := get_all_records_for_entry st entry
    if stored.isEmpty then .ok none
    else .ok (some (stored.getLastD default))

/-- `SQLiteGlossary.add_entry`: insert the row (with the lowered entry and the
write-time timestamp `now`), bust the all-entries cache, and return
`get_entry_data(entry)`. -/
def add_entry (st : Store) (entry definition author : String) (channel : Option String)
    (now : Nat) : Except Unit (Option GlossaryRecord) × Store :=
  let row := Row.mk entry (pyLower entry) definition author channel now
  let st' := Store.mk (st.rows ++ [row]) none
  (get_entry_data st' entry none, st')

/-- `SQLiteGlossary.get_similar_words`: entries (from the cached all-records
list) whose `entry_lower` contains the lowered search string. -/
def get_similar_words (st : Store) (search_str : String) : List String × Store :=
  let s := pyLower search_str
  let (all_entries, st') := get_all_records st
  ((all_entries.filter (fun e => containsSub s.data e.entry_lower.data)).map
      (fun e => e.entry),
    st')

/-- `SQLiteGlossary.search_definitions`: `SELECT DISTINCT entry ... WHERE
definition LIKE '%' || ? || '%' ORDER BY entry` — note the unescaped search
string inside the pattern, and that every historical definition row is
searched. -/
def search_definitions (st : Store) (search_str : String) : List String :=
  let pat := '%' :: (search_str.data ++ ['%'])
  let hits := (st.rows.filter (fun r => likeMatches pat r.definition.data)).map
    (fun r => r.entry)
  List.insertionSort strLe hits.dedup

/-- `SQLiteGlossary.get_random_entry`, with `random.choice` modelled by the
oracle index `rand`. -/
def get_random_entry (st : Store) (rand : Nat) : Option String × Store :=
  let (entries, st') := get_all_records st
  if entries.isEmpty then (none, st')
  else (some ((entries.getD (rand % entries.length) default).entry), st')

/-! ## Message strings

Apostrophes and backticks that appear inside the source's message literals are
spliced in by code point. -/

/-- An apostrophe. -/
def apos : String := String.singleton (Char.ofNat 39)

/-- A backtick. -/
def btick : String := String.singleton (Char.ofNat 96)

/-- `DOCS_STR` (with `HELP_DEFINE_STR` / `HELP_QUERY_STR` / `HELP_SEARCH_STR`
already interpolated, as the source does at import time). -/
def DOCS_STR : String :=
  "To define a glossary entry: " ++ btick ++ "!define <entry>: <definition>" ++ btick
    ++ ". To get a definition: " ++ btick ++ "!whatis <entry> [<num>]" ++ btick
    ++ ". To search for entries: " ++ btick ++ "!search <search terms>" ++ btick
    ++ ". Pass in an integer >= 1 to get a definition from the history."
    ++ " Get a random definition by omitting the entry argument."

/-- `OOPS_STR`. -/
def OOPS_STR : String :=
  "I didn" ++ apos ++ "t understand that. " ++ DOCS_STR

/-- `ADD_DEFINITION_RESULT_TEMPLATE`, formatted. -/
def addDefinitionResult (entry definition : String) : String :=
  "Okay! \"" ++ entry ++ "\" is now \"" ++ definition ++ "\""

/-- `QUERY_RESULT_TEMPLATE`, formatted. -/
def queryResultMsg (entry : String) (num total : Nat)
    (definition author age channel_str : String) : String :=
  entry ++ " (" ++ toString num ++ "/" ++ toString total ++ "): " ++ definition
    ++ " [defined by " ++ author ++ " " ++ age ++ channel_str ++ "]"

/-- `UNDEFINED_TEMPLATE`, formatted. -/
def undefinedMsg (entry : String) : String :=
  "\"" ++ entry ++ "\" is undefined."

/-- Python `'{}'.format(num)` for the `num` bound in `handle_nth_definition`
(always an `int` on the reachable error path; `None` would print as `None`). -/
def formatOptInt : Option Int → String
  | some n => toString n
  | none => "None"

/-- The out-of-range message of `handle_nth_definition`. -/
def invalidNumMsg (num : Option Int) (entry : String) : String :=
  "\"" ++ formatOptInt num ++ "\" is not a valid glossary entry number for \""
    ++ entry ++ "\"."

/-- The `'::'` rejection message of `define`. -/
def doubleColonMsg : String :=
  "I can" ++ apos ++ "t handle " ++ apos ++ "::" ++ apos
    ++ " right now. Please try again without it."

/-- The punctuation rejection message of `define` (the source's typo
"Punctation" included). -/
def punctuationMsg (c : Char) : String :=
  "Punctation (\"" ++ String.singleton c ++ "\") cannot be used in a glossary entry."

/-- The identical-definition message of `define`. -/
def noChangeMsg : String :=
  "That" ++ apos ++ "s already the current definition."

/-- The empty-glossary message of `handle_random_query`. -/
def noRandomMsg : String :=
  "I can" ++ apos ++ "t find a single definition. " ++ DOCS_STR

/-- The empty-result message of `handle_search`. -/
def noResultsMsg : String := "No glossary results found."

/-- The non-empty-result message of `handle_search`. -/
def foundMsg (s : String) : String :=
  "Found glossary entries: " ++ s ++ ". To get a definition: !whatis <entry>"

/-! ## Age rendering -/

/-- Python `'{0:.1f}'.format(num / den)` for non-negative integers, as
round-half-even decimal rounding of the exact rational.  The source divides by
the floats `30.5` and `365.0`; since both denominators used (61 and 365 after
clearing the half) are odd, no exact tie ever occurs, and for every
representable `timedelta.days` the double-precision quotient is far closer to
the exact rational than to any rounding boundary, so this integer model agrees
with the float computation on all inputs the program can produce. -/
def formatOneDecimal (num den : Nat) : String :=
  let q := (10 * num) / den
  let r := (10 * num) % den
  let k :=
    if 2 * r < den then q
    else if den < 2 * r then q + 1
    else if q % 2 = 0 then q else q + 1
  toString (k / 10) ++ "." ++ toString (k % 10)

/-- `datetime_to_age_str`: `now` is `datetime.datetime.utcnow()` and `dt` the
record's timestamp, both in epoch seconds; `days` and the truncating `int`
divisions of the source become `Nat` division. -/
def datetime_to_age_str (now dt : Nat) : String :=
  let seconds := now - dt
  let days := seconds / 86400
  if 365 ≤ days then formatOneDecimal days 365 ++ " years ago"
  else if 30 < days then formatOneDecimal (2 * days) 61 ++ " months ago"
  else if 1 < days then toString days ++ " days ago"
  else if days = 1 then "yesterday"
  else
    let hours := seconds / 3600
    if 1 < hours then toString hours ++ " hours ago"
    else if hours = 1 then "1 hour ago"
    else
      let minutes := seconds / 60
      if 1 < minutes then toString minutes ++ " minutes ago"
      else if minutes = 1 then "1 minute ago"
      else "just now"

/-! ## Handler helpers -/

/-- `readable_join`: `None` on an empty list, the single item, or an
oxford-comma join with the conjunction. -/
def readable_join (items : List String) (conjunction : String) : Option String :=
  match items with
  | [] => none
  | [a] => some a
  | [a, b] => some (a ++ " " ++ conjunction ++ " " ++ b)
  | _ =>
    some (String.intercalate ", " items.dropLast ++ ", " ++ conjunction ++ " "
      ++ items.getLastD "")

/-- The `query_words` set built by `get_alternative_suggestions`: for each of
the three delimiters separately, split the entry on that delimiter, and strip
and lower every part. -/
def queryWords (entry : String) : List String :=
  (([' ', '-', '_'].map (fun d => (pySplit entry d).map (fun p => pyLower (pyStrip p)))).flatten).dedup

/-- `get_alternative_suggestions`: union of `get_similar_words` over the query
words (a Python `set`, modelled as a deduplicated list). -/
def get_alternative_suggestions (st : Store) (entry : String) : List String × Store :=
  let step := (queryWords entry).foldl
    (fun acc w =>
      let (similar, st') := get_similar_words acc.2 w
      (acc.1 ++ similar, st'))
    (([] : List String), st)
  (step.1.dedup, step.2)

/-- The `channel_str` computed by `handle_nth_definition`; an empty channel
string is falsy in Python and yields the empty suffix. -/
def channelStr : Option String → String
  | some ch => if ch.isEmpty then "" else " in " ++ ch
  | none => ""

/-- `handle_nth_definition`: the `try/except IndexError` around
`get_entry_data` becomes the match on `.error`.  The `list(...)[:10]`
truncation of the suggestion set is `take 10` of the modelled set. -/
def handle_nth_definition (st : Store) (now : Nat) (entry : String) (num : Option Int) :
    String × Store :=
  match get_entry_data st entry num with
  | .error _ => (invalidNumMsg num entry, st)
  | .ok (some r) =>
    (queryResultMsg r.entry (r.index + 1) r.total_count r.definition r.author
        (datetime_to_age_str now r.datetime) (channelStr r.channel),
      st)
  | .ok none =>
    let (sugg, st') := get_alternative_suggestions st entry
    match readable_join (sugg.take 10) "or" with
    | some s => (undefinedMsg entry ++ " May I interest you in " ++ s ++ "?", st')
    | none => (undefinedMsg entry, st')

/-- `handle_random_query`. -/
def handle_random_query (st : Store) (now rand : Nat) : String × Store :=
  match get_random_entry st rand with
  | (none, st') => (noRandomMsg, st')
  | (some e, st') => handle_nth_definition st' now e none

/-- The `matches` list computed by `handle_search`: similar-entry matches,
plus definition matches not already captured (compared lower-cased), as a
sorted deduplicated list (Python `sorted(list(set | set))`). -/
def searchMatches (st : Store) (rest : String) : List String × Store :=
  let (sim, st') := get_similar_words st rest
  let entry_matches := sim.dedup
  let lower_matches := entry_matches.map pyLower
  let def_matches := (search_definitions st' rest).filter
    (fun e => !(lower_matches.contains (pyLower e)))
  (List.insertionSort strLe (entry_matches ++ def_matches).dedup, st')

/-- `handle_search`. -/
def handle_search (st : Store) (rest : String) : String × Store :=
  let (found, st') := searchMatches st rest
  if found.isEmpty then (noResultsMsg, st')
  else (foundMsg ((readable_join found "and").getD "None"), st')

/-! ## Command handlers -/

/-- Result of the `entry_number_command` decorator's argument parsing. -/
inductive EntryNumArg where
  | docs
  | oops
  | parsed (entry : String) (num : Option Int)
deriving DecidableEq

/-- The parsing performed by the `entry_number_command` decorator: strip, the
`help` short-circuit, and the `<entry>: <num>` split on the first colon with
`int(...)` conversion (`ValueError` → `OOPS_STR`). -/
def entry_number_command (rest0 : String) : EntryNumArg :=
  let rest := pyStrip rest0
  if pyLower rest == "help" then .docs
  else if rest.data.contains ':' then
    let parts := firstColonSplit rest
    match pyParseInt (pyStrip parts.2) with
    | none => .oops
    | some n => .parsed (pyStrip parts.1) (some n)
  else .parsed rest none

/-- The `query` command (`!whatis`), wrapped by `entry_number_command`.  An
empty entry is falsy and triggers the random path. -/
def query (st : Store) (rest : String) (now rand : Nat) : String × Store :=
  match entry_number_command rest with
  | .docs => (DOCS_STR, st)
  | .oops => (OOPS_STR, st)
  | .parsed entry num =>
    if entry.isEmpty then handle_random_query st now rand
    else handle_nth_definition st now entry num

/-- The `search` command, wrapped by `entry_number_command`.  `if not entry or
num` uses Python truthiness: a parsed `num` of `0` is falsy. -/
def search (st : Store) (rest : String) : String × Store :=
  match entry_number_command rest with
  | .docs => (DOCS_STR, st)
  | .oops => (OOPS_STR, st)
  | .parsed entry num =>
    if entry.isEmpty || (match num with | some n => n != 0 | none => false) then
      (OOPS_STR, st)
    else handle_search st entry

/-- The `define` command.  The `len(parts) != 2` guard of the source can never
fire (a 1-maxsplit on a string containing `':'` always yields two parts) and
is omitted.  The `.error` results model exceptions escaping the handler: the
unreachable `IndexError` of `get_entry_data` with no `num`, and the
`AttributeError` of `result.entry` if `add_entry` returned `None`. -/
def define (st : Store) (rest0 nick : String) (channel : Option String) (now : Nat) :
    Except Unit String × Store :=
  let rest := pyStrip rest0
  if pyLower rest == "help" then (.ok DOCS_STR, st)
  else if !(rest.data.contains ':') then (.ok OOPS_STR, st)
  else if containsSub "::".data rest.data then (.ok doubleColonMsg, st)
  else
    let parts := firstColonSplit rest
    let entry := pyStrip parts.1
    match entry.data.find? (fun c => pyPunctuation.contains c) with
    | some c => (.ok (punctuationMsg c), st)
    | none =>
      let definition := pyStrip parts.2
      match get_entry_data st entry none with
      | .error e => (.error e, st)
      | .ok existing =>
        if (match existing with
            | some ex => ex.definition == definition
            | none => false) then
          (.ok noChangeMsg, st)
        else
          match add_entry st entry definition nick channel now with
          | (.error e, st') => (.error e, st')
          | (.ok none, st') => (.error (), st')
          | (.ok (some r), st') => (.ok (addDefinitionResult r.entry r.definition), st')

/-! ## Basic lemmas: case folding -/

theorem toNat_ofNat_valid {n : Nat} (h1 : 97 ≤ n) (h2 : n ≤ 122) :
    (Char.ofNat n).toNat = n := by
  unfold Char.ofNat
  rw [dif_pos]
  · rfl
  · left; omega

theorem pyCharLower_toNat_of_upper {c : Char} (h1 : 65 ≤ c.toNat) (h2 : c.toNat ≤ 90) :
    (pyCharLower c).toNat = c.toNat + 32 := by
  unfold pyCharLower
  rw [if_pos ⟨h1, h2⟩, toNat_ofNat_valid] <;> omega

theorem pyCharLower_of_not_upper {c : Char} (h : ¬(65 ≤ c.toNat ∧ c.toNat ≤ 90)) :
    pyCharLower c = c := if_neg h

theorem pyCharLower_idem (c : Char) : pyCharLower (pyCharLower c) = pyCharLower c := by
  by_cases h : 65 ≤ c.toNat ∧ c.toNat ≤ 90
  · have ht : (pyCharLower c).toNat = c.toNat + 32 := pyCharLower_toNat_of_upper h.1 h.2
    exact pyCharLower_of_not_upper (by omega)
  · rw [pyCharLower_of_not_upper h, pyCharLower_of_not_upper h]

/-- `pyCharLower` can only produce a character below code point 97 by leaving
its argument unchanged. -/
theorem eq_of_pyCharLower_eq_low {c d : Char} (hd : d.toNat < 97)
    (h : pyCharLower c = d) : c = d := by
  by_cases hc : 65 ≤ c.toNat ∧ c.toNat ≤ 90
  · have ht : (pyCharLower c).toNat = c.toNat + 32 := pyCharLower_toNat_of_upper hc.1 hc.2
    rw [h] at ht
    omega
  · rwa [pyCharLower_of_not_upper hc] at h

theorem pyLower_data (s : String) : (pyLower s).data = s.data.map pyCharLower := rfl

theorem pyLower_idem (s : String) : pyLower (pyLower s) = pyLower s := by
  unfold pyLower
  simp [List.map_map, Function.comp_def, pyCharLower_idem]

theorem pyLower_append (a b : String) : pyLower (a ++ b) = pyLower a ++ pyLower b := by
  apply String.ext
  simp [pyLower_data, String.data_append]

/-! ## Basic lemmas: substring occurrence -/

theorem startsWithL_iff {n h : List Char} :
    startsWithL n h = true ↔ ∃ t, h = n ++ t := by
  induction n generalizing h with
  | nil => simp [startsWithL]
  | cons a as ih =>
    cases h with
    | nil => simp [startsWithL]
    | cons b bs =>
      rw [startsWithL, Bool.and_eq_true, beq_iff_eq, ih]
      constructor
      · rintro ⟨rfl, t, rfl⟩
        exact ⟨t, rfl⟩
      · rintro ⟨t, ht⟩
        rw [List.cons_append] at ht
        cases ht
        exact ⟨rfl, t, rfl⟩

theorem containsSub_iff {n h : List Char} :
    containsSub n h = true ↔ ∃ p t, h = p ++ (n ++ t) := by
  induction h with
  | nil =>
    simp only [containsSub, List.isEmpty_iff]
    constructor
    · rintro rfl
      exact ⟨[], [], rfl⟩
    · rintro ⟨p, t, ht⟩
      rcases (by simpa using ht.symm : p = [] ∧ n = [] ∧ t = []) with ⟨_, h2, _⟩
      exact h2
  | cons c rest ih =>
    rw [containsSub, Bool.or_eq_true, startsWithL_iff, ih]
    constructor
    · rintro (⟨t, ht⟩ | ⟨p, t, ht⟩)
      · exact ⟨[], t, by simpa using ht⟩
      · exact ⟨c :: p, t, by simp [ht]⟩
    · rintro ⟨p, t, ht⟩
      cases p with
      | nil => exact Or.inl ⟨t, by simpa using ht⟩
      | cons x xs =>
        rw [List.cons_append] at ht
        cases ht
        exact Or.inr ⟨xs, t, rfl⟩

theorem containsSub_trans {a b c : List Char} (h1 : containsSub a b = true)
    (h2 : containsSub b c = true) : containsSub a c = true := by
  rw [containsSub_iff] at *
  obtain ⟨p1, t1, rfl⟩ := h1
  obtain ⟨p2, t2, rfl⟩ := h2
  exact ⟨p2 ++ p1, t1 ++ t2, by simp⟩

theorem containsSub_of_append_right {a m x : List Char}
    (h : containsSub (a ++ m) x = true) : containsSub a x = true :=
  containsSub_trans (containsSub_iff.2 ⟨[], m, by simp⟩) h

/-! ## Basic lemmas: splitting and stripping -/

theorem splitChar_of_not_mem {c : Char} {l : List Char} (h : c ∉ l) :
    splitChar c l = [l] := by
  induction l with
  | nil => rfl
  | cons x xs ih =>
    rw [splitChar, if_neg (by rintro rfl; exact h (List.mem_cons_self x xs)),
      ih (fun hc => h (List.mem_cons_of_mem x hc))]

theorem splitChar_append {c : Char} {a b : List Char} (h : c ∉ a) :
    splitChar c (a ++ c :: b) = a :: splitChar c b := by
  induction a with
  | nil => simp [splitChar]
  | cons x xs ih =>
    rw [List.cons_append, splitChar,
      if_neg (by rintro rfl; exact h (List.mem_cons_self x xs)),
      ih (fun hc => h (List.mem_cons_of_mem x hc))]

theorem pyStripList_eq_self {l : List Char} (h : ∀ x ∈ l, pyIsSpace x = false) :
    pyStripList l = l := by
  unfold pyStripList
  have h1 : l.dropWhile pyIsSpace = l := by
    cases l with
    | nil => rfl
    | cons x xs => rw [List.dropWhile_cons_of_neg (by simp [h x (List.mem_cons_self x xs)])]
  rw [h1]
  have h2 : l.reverse.dropWhile pyIsSpace = l.reverse := by
    cases hr : l.reverse with
    | nil => rfl
    | cons x xs =>
      rw [List.dropWhile_cons_of_neg]
      simp only [Bool.not_eq_true]
      exact h x (by rw [← List.mem_reverse, hr]; exact List.mem_cons_self x xs)
  rw [h2, List.reverse_reverse]

/-! ## Basic lemmas: LIKE matching -/

/-- A LIKE pattern with no `%` or `_` wildcards. -/
def wildcardFree (l : List Char) : Bool :=
  l.all (fun c => !(c == '%') && !(c == '_'))

theorem likeMatches_nil_pat (s : List Char) : likeMatches [] s = s.isEmpty := rfl

theorem likeMatches_percent (ps s : List Char) :
    likeMatches ('%' :: ps) s = s.tails.any (fun t => likeMatches ps t) := by
  simp [likeMatches]

theorem likeMatches_cons_nil {c : Char} {ps : List Char} (hc : c ≠ '%') :
    likeMatches (c :: ps) [] = false := by
  simp [likeMatches, hc]

theorem likeMatches_cons_cons {c d : Char} {ps ss : List Char} (hc : c ≠ '%') :
    likeMatches (c :: ps) (d :: ss) =
      ((if c = '_' then true else likeCharEq c d) && likeMatches ps ss) := by
  simp only [likeMatches, if_neg hc]

theorem likeMatches_self (p : List Char) : likeMatches p p = true := by
  induction p with
  | nil => rfl
  | cons c ps ih =>
    by_cases hc : c = '%'
    · subst hc
      rw [likeMatches_percent, List.any_eq_true]
      exact ⟨ps, (List.mem_tails ps ('%' :: ps)).2 (List.suffix_cons '%' ps), ih⟩
    · rw [likeMatches_cons_cons hc, Bool.and_eq_true]
      refine ⟨?_, ih⟩
      by_cases hu : c = '_'
      · simp [hu]
      · simp [hu, likeCharEq]

/-- On a wildcard-free pattern, LIKE is exactly case-insensitive equality. -/
theorem likeMatches_wildcardFree {p s : List Char} (hp : wildcardFree p = true) :
    likeMatches p s = true ↔ p.map pyCharLower = s.map pyCharLower := by
  induction p generalizing s with
  | nil =>
    cases s <;> simp [likeMatches_nil_pat]
  | cons c ps ih =>
    have hp' := hp
    rw [wildcardFree, List.all_cons, Bool.and_eq_true, Bool.and_eq_true] at hp'
    obtain ⟨⟨hcp, hcu⟩, hps⟩ := hp'
    rw [Bool.not_eq_true', beq_eq_false_iff_ne] at hcp hcu
    cases s with
    | nil => simp [likeMatches_cons_nil hcp]
    | cons d ss =>
      rw [likeMatches_cons_cons hcp, if_neg hcu, Bool.and_eq_true, likeCharEq,
        beq_iff_eq, ih hps]
      simp only [List.map_cons, List.cons.injEq]

/-! ## Store invariants and helper notions used in theorem statements -/

/-- Rows written through `add_entry` always carry `entry_lower = entry.lower()`. -/
def WFRows (st : Store) : Prop :=
  ∀ r ∈ st.rows, r.entry_lower = pyLower r.entry

/-- The table rows belonging to a term `T`, compared case-insensitively (the
intended semantics of the `entry_lower LIKE ?` filter), in insertion order. -/
def rowsFor (st : Store) (T : String) : List Row :=
  st.rows.filter (fun r => r.entry_lower == pyLower T)

/-- The class-level cache is either empty or holds the list computed from the
current table (every write path busts it, so this invariant is maintained). -/
def cacheOK (st : Store) : Prop :=
  st.cache = none ∨ st.cache = some (computeAllRecords st.rows)

theorem pyLower_map_self (s : String) :
    (pyLower s).data.map pyCharLower = (pyLower s).data :=
  congrArg String.data (pyLower_idem s)

/-- On a well-formed store, filtering by `entry_lower LIKE lower(T)` with a
wildcard-free `T` is exactly the case-insensitive row selection `rowsFor`. -/
theorem filter_like_eq_rowsFor {st : Store} {T : String} (hWF : WFRows st)
    (hT : wildcardFree (pyLower T).data = true) :
    st.rows.filter (fun r => likeMatches (pyLower T).data r.entry_lower.data)
      = rowsFor st T := by
  unfold rowsFor
  apply List.filter_congr
  intro r hr
  have hlow : r.entry_lower.data.map pyCharLower = r.entry_lower.data := by
    rw [hWF r hr]; exact pyLower_map_self _
  have key : likeMatches (pyLower T).data r.entry_lower.data = true
      ↔ (r.entry_lower == pyLower T) = true := by
    rw [likeMatches_wildcardFree hT, beq_iff_eq, pyLower_map_self, hlow]
    constructor
    · intro h
      exact (String.ext h).symm
    · intro h
      exact congrArg String.data h.symm
  cases hb : (r.entry_lower == pyLower T) with
  | true => exact key.2 hb
  | false =>
    exact Bool.eq_false_iff.2 (fun h => by rw [key.1 h] at hb; cases hb)

/-! ## Sorting lemmas -/

theorem sortRowsByTs_sorted_eq {l : List Row} (h : List.Sorted tsLe l) :
    sortRowsByTs l = l :=
  h.insertionSort_eq

theorem sorted_filter_ts {l : List Row} (h : List.Sorted tsLe l) (p : Row → Bool) :
    List.Sorted tsLe (l.filter p) :=
  h.sublist (List.filter_sublist l)

/-! ## `annotateRecords` lemmas -/

theorem annotate_length (total i : Nat) (l : List Row) :
    (annotateRecords total i l).length = l.length := by
  induction l generalizing i with
  | nil => rfl
  | cons r rest ih => simp [annotateRecords, ih]

theorem annotate_ne_nil {total i : Nat} {l : List Row} (h : l ≠ []) :
    annotateRecords total i l ≠ [] := by
  cases l with
  | nil => cases h rfl
  | cons r rest => simp [annotateRecords]

theorem annotate_get (total : Nat) :
    ∀ (i : Nat) (l : List Row) (j : Nat) (hj : j < l.length)
      (hj2 : j < (annotateRecords total i l).length),
      (annotateRecords total i l).get ⟨j, hj2⟩ =
        GlossaryRecord.mk (l.get ⟨j, hj⟩).entry (l.get ⟨j, hj⟩).entry_lower
          (l.get ⟨j, hj⟩).definition (l.get ⟨j, hj⟩).author (l.get ⟨j, hj⟩).channel
          (l.get ⟨j, hj⟩).ts (i + j) total := by
  intro i l
  induction l generalizing i with
  | nil => intro j hj; cases (Nat.not_lt_zero j) hj
  | cons r rest ih =>
    intro j hj hj2
    cases j with
    | zero => rfl
    | succ k =>
      have hk : k < rest.length := Nat.lt_of_succ_lt_succ hj
      have hk2 : k < (annotateRecords total (i + 1) rest).length := by
        rw [annotate_length]; exact hk
      have := ih (i + 1) k hk hk2
      simp only [annotateRecords, List.get_cons_succ]
      rw [this]
      congr 1
      omega

/-! ## `getLastD` lemmas -/

theorem length_sub_one_lt {α : Type} {l : List α} (h : l ≠ []) :
    l.length - 1 < l.length := by
  cases l with
  | nil => cases h rfl
  | cons x xs => simp

theorem getLastD_eq_get {α : Type} (l : List α) (d : α)
    (hlen : l.length - 1 < l.length) :
    l.getLastD d = l.get ⟨l.length - 1, hlen⟩ := by
  rw [List.getLastD_eq_getLast?, List.getLast?_eq_getElem?,
    List.getElem?_eq_getElem hlen]
  simp [List.get_eq_getElem]

theorem getLastD_mem {α : Type} (l : List α) (d : α) (h : l ≠ []) :
    l.getLastD d ∈ l := by
  rw [getLastD_eq_get l d (length_sub_one_lt h)]
  exact l.get_mem _ _

/-- On a well-formed, timestamp-sorted store and a wildcard-free term, the
history lookup is exactly the annotated case-insensitive row selection in
insertion order. -/
theorem get_all_records_for_entry_eq {st : Store} {T : String} (hWF : WFRows st)
    (hT : wildcardFree (pyLower T).data = true) (hsort : List.Sorted tsLe st.rows) :
    get_all_records_for_entry st T
      = annotateRecords (rowsFor st T).length 0 (rowsFor st T) := by
  simp only [get_all_records_for_entry]
  rw [filter_like_eq_rowsFor hWF hT]
  have hs : sortRowsByTs (rowsFor st T) = rowsFor st T :=
    sortRowsByTs_sorted_eq (sorted_filter_ts hsort _)
  rw [hs]

theorem get_all_records_for_entry_ne_nil {st : Store} {T : String} (hWF : WFRows st)
    (hT : wildcardFree (pyLower T).data = true) (hsort : List.Sorted tsLe st.rows)
    (hne : rowsFor st T ≠ []) : get_all_records_for_entry st T ≠ [] := by
  rw [get_all_records_for_entry_eq hWF hT hsort]
  exact annotate_ne_nil hne

/-! ## Example stores used by concrete witnesses and counterexamples -/

/-- A store holding two chronological definitions of `fish` (the scenario of
the spec's end-to-end property and of `tests.py`). -/
def fishRow1 : Row := Row.mk "fish" "fish" "a swimmy thing" "alice" none 100

def fishRow2 : Row := Row.mk "fish" "fish" "dinner" "bob" none 200

def fishStore : Store := Store.mk [fishRow1, fishRow2] none

/-! ## C1 -/

/-- C1: for a term `T` with `n ≥ 1` stored definitions in chronological order,
`get_entry_data (T, i)` returns the record holding the `i`-th definition
(annotated with 0-based `index = i - 1` and `total_count = n`) for every
`i ∈ [1, n]`; `get_entry_data (T, 0)` and `get_entry_data (T, n+1)` raise the
out-of-range `IndexError`, which `handle_nth_definition` renders as the
"not a valid glossary entry number" message — distinct from the `None`
(not-found) result an unknown term produces; and `get_entry_data (T)` with no
version equals `get_entry_data (T, n)`. -/
theorem C1_get_entry_data_versions (st : Store) (T : String) (now : Nat)
    (hWF : WFRows st) (hT : wildcardFree (pyLower T).data = true)
    (hsort : List.Sorted tsLe st.rows) (hne : rowsFor st T ≠ []) :
    (∀ i : Nat, 1 ≤ i → i ≤ (rowsFor st T).length →
      ∀ hi : i - 1 < (rowsFor st T).length,
        get_entry_data st T (some (i : Int)) =
          .ok (some (GlossaryRecord.mk ((rowsFor st T).get ⟨i - 1, hi⟩).entry
            ((rowsFor st T).get ⟨i - 1, hi⟩).entry_lower
            ((rowsFor st T).get ⟨i - 1, hi⟩).definition
            ((rowsFor st T).get ⟨i - 1, hi⟩).author
            ((rowsFor st T).get ⟨i - 1, hi⟩).channel
            ((rowsFor st T).get ⟨i - 1, hi⟩).ts
            (i - 1) (rowsFor st T).length))) ∧
    get_entry_data st T (some 0) = .error () ∧
    get_entry_data st T (some (((rowsFor st T).length : Int) + 1)) = .error () ∧
    get_entry_data st T none
      = get_entry_data st T (some ((rowsFor st T).length : Int)) ∧
    (handle_nth_definition st now T (some 0)).1 = invalidNumMsg (some 0) T ∧
    (handle_nth_definition st now T (some (((rowsFor st T).length : Int) + 1))).1
      = invalidNumMsg (some (((rowsFor st T).length : Int) + 1)) T ∧
    (∀ U : String, wildcardFree (pyLower U).data = true → rowsFor st U = [] →
      get_entry_data st U none = .ok none) := by
  have hchar := get_all_records_for_entry_eq hWF hT hsort
  have hlen : (get_all_records_for_entry st T).length = (rowsFor st T).length := by
    rw [hchar, annotate_length]
  have hnonempty : ¬(get_all_records_for_entry st T).isEmpty = true := by
    rw [List.isEmpty_iff]
    exact get_all_records_for_entry_ne_nil hWF hT hsort hne
  have hpos : 0 < (rowsFor st T).length := by
    cases hrf : rowsFor st T with
    | nil => cases hne hrf
    | cons x xs => simp
  have herr0 : get_entry_data st T (some 0) = .error () := by
    simp only [get_entry_data, if_pos (by norm_num : (0 : Int) < 1)]
  have herrN : get_entry_data st T (some (((rowsFor st T).length : Int) + 1))
      = .error () := by
    have hnotlt : ¬(((rowsFor st T).length : Int) + 1 < 1) := by omega
    have hnl : ¬(((((rowsFor st T).length : Int) + 1) - 1).toNat
        < (get_all_records_for_entry st T).length) := by
      rw [hlen]; omega
    simp only [get_entry_data, if_neg hnotlt, if_neg hnonempty, dif_neg hnl]
  refine ⟨?_, herr0, herrN, ?_, ?_, ?_, ?_⟩
  · -- the in-range versions
    intro i h1 h2 hi
    have hnotlt : ¬((i : Int) < 1) := by omega
    have htn : ((i : Int) - 1).toNat = i - 1 := by omega
    have hlt : ((i : Int) - 1).toNat < (get_all_records_for_entry st T).length := by
      rw [hlen]; omega
    have hjj : ((i : Int) - 1).toNat < (rowsFor st T).length := by omega
    simp only [get_entry_data, if_neg hnotlt, if_neg hnonempty, dif_pos hlt]
    rw [List.get_of_eq hchar, annotate_get (rowsFor st T).length 0 (rowsFor st T)
      ((i : Int) - 1).toNat hjj]
    simp only [htn, Nat.zero_add]
  · -- no version = latest version
    have h1 : ¬(((rowsFor st T).length : Int) < 1) := by omega
    have hlt : ((((rowsFor st T).length : Int)) - 1).toNat
        < (get_all_records_for_entry st T).length := by
      rw [hlen]; omega
    simp only [get_entry_data, if_neg h1, if_neg hnonempty, dif_pos hlt]
    rw [getLastD_eq_get _ _ (by rw [hlen]; omega)]
    have hidx : (get_all_records_for_entry st T).length - 1
        = ((((rowsFor st T).length : Int)) - 1).toNat := by omega
    simp only [hidx]
  · -- rendered message for version 0
    simp only [handle_nth_definition, herr0]
  · -- rendered message for version n + 1
    simp only [handle_nth_definition, herrN]
  · -- unknown terms yield the None result, not the IndexError
    intro U hU hUe
    have hcharU := get_all_records_for_entry_eq hWF hU hsort
    have hempty : (get_all_records_for_entry st U).isEmpty = true := by
      rw [hcharU, hUe]; rfl
    simp only [get_entry_data, if_pos hempty]

/-- C1, witnessed on the two-definition `fish` store: version 0 is rejected
with the `IndexError` result, rendered as the invalid-entry-number message. -/
theorem C1_get_entry_data_versions_witness :
    get_entry_data fishStore "fish" (some 0) = .error () ∧
    (handle_nth_definition fishStore 260 "fish" (some 0)).1
      = invalidNumMsg (some 0) "fish" :=
  ⟨(C1_get_entry_data_versions fishStore "fish" 260 (by unfold WFRows; decide)
      (by decide) (by decide) (by decide)).2.1,
   (C1_get_entry_data_versions fishStore "fish" 260 (by unfold WFRows; decide)
      (by decide) (by decide) (by decide)).2.2.2.2.1⟩

/-! ## C8 -/

/-- The age-rendering thresholds exactly as the specification words them, for
comparison with `datetime_to_age_str` (C8 is a refinement claim; this
definition follows the spec's words, not the code). -/
def specAgeStr (sec : Nat) : String :=
  let days := sec / 86400
  if sec < 60 then "just now"
  else if sec < 3600 then
    (if sec / 60 = 1 then "1 minute ago" else toString (sec / 60) ++ " minutes ago")
  else if sec < 86400 then
    (if sec / 3600 = 1 then "1 hour ago" else toString (sec / 3600) ++ " hours ago")
  else if days = 1 then "yesterday"
  else if days ≤ 30 then toString days ++ " days ago"
  else if days < 365 then formatOneDecimal (2 * days) 61 ++ " months ago"
  else formatOneDecimal days 365 ++ " years ago"

set_option maxHeartbeats 3200000 in
/-- C8: for every elapsed duration, the rendered age string follows exactly
the spec's thresholds (under a minute "just now", then minutes, hours,
"yesterday" for one whole day, day counts to 30, months as `days/30.5` to one
decimal, years as `days/365` to one decimal), including the boundary cases:
60 seconds is "1 minute ago", 24h is "yesterday", 30 days is "30 days ago",
31 days is "1.0 months ago", 365 days is "1.0 years ago". -/
theorem C8_age_string_thresholds :
    (∀ dt sec : Nat, datetime_to_age_str (dt + sec) dt = specAgeStr sec) ∧
    datetime_to_age_str 60 0 = "1 minute ago" ∧
    datetime_to_age_str 86400 0 = "yesterday" ∧
    datetime_to_age_str (30 * 86400) 0 = "30 days ago" ∧
    datetime_to_age_str (31 * 86400) 0 = "1.0 months ago" ∧
    datetime_to_age_str (365 * 86400) 0 = "1.0 years ago" := by
  refine ⟨?_, rfl, rfl, rfl, rfl, rfl⟩
  intro dt sec
  have hsub : dt + sec - dt = sec := by omega
  simp only [datetime_to_age_str, specAgeStr, hsub]
  split_ifs <;> first | omega | rfl

/-! ## C2 support: the latest record for a term -/

theorem wildcardFree_of_no_punct {e : String}
    (h : e.data.find? (fun c => pyPunctuation.contains c) = none) :
    wildcardFree (pyLower e).data = true := by
  rw [List.find?_eq_none] at h
  rw [wildcardFree, List.all_eq_true]
  intro c hc
  rw [pyLower_data, List.mem_map] at hc
  obtain ⟨c0, hc0, rfl⟩ := hc
  have h0 := h c0 hc0
  rw [Bool.and_eq_true, Bool.not_eq_true', Bool.not_eq_true', beq_eq_false_iff_ne,
    beq_eq_false_iff_ne]
  constructor
  · intro heq
    have : c0 = '%' := eq_of_pyCharLower_eq_low (by decide) heq
    subst this
    exact h0 (by decide)
  · intro heq
    have : c0 = '_' := eq_of_pyCharLower_eq_low (by decide) heq
    subst this
    exact h0 (by decide)

/-- With no version argument, `get_entry_data` returns the chronologically
last stored row for the term, annotated with the top index and total. -/
theorem get_entry_data_none_eq_last {st : Store} {T : String} (hWF : WFRows st)
    (hT : wildcardFree (pyLower T).data = true) (hsort : List.Sorted tsLe st.rows)
    (hne : rowsFor st T ≠ []) :
    ∃ rec, get_entry_data st T none = .ok (some rec)
      ∧ rec.definition = ((rowsFor st T).getLastD default).definition
      ∧ rec.index = (rowsFor st T).length - 1
      ∧ rec.total_count = (rowsFor st T).length := by
  have hchar := get_all_records_for_entry_eq hWF hT hsort
  have hlen : (get_all_records_for_entry st T).length = (rowsFor st T).length := by
    rw [hchar, annotate_length]
  have hnonempty : ¬(get_all_records_for_entry st T).isEmpty = true := by
    rw [List.isEmpty_iff]
    exact get_all_records_for_entry_ne_nil hWF hT hsort hne
  have hpos : 0 < (rowsFor st T).length := by
    cases hrf : rowsFor st T with
    | nil => cases hne hrf
    | cons x xs => simp
  have hlt : (get_all_records_for_entry st T).length - 1
      < (get_all_records_for_entry st T).length := by omega
  have hidx : (get_all_records_for_entry st T).length - 1
      = (rowsFor st T).length - 1 := by omega
  have hjj : (rowsFor st T).length - 1 < (rowsFor st T).length := by omega
  refine ⟨GlossaryRecord.mk ((rowsFor st T).get ⟨(rowsFor st T).length - 1, hjj⟩).entry
      ((rowsFor st T).get ⟨(rowsFor st T).length - 1, hjj⟩).entry_lower
      ((rowsFor st T).get ⟨(rowsFor st T).length - 1, hjj⟩).definition
      ((rowsFor st T).get ⟨(rowsFor st T).length - 1, hjj⟩).author
      ((rowsFor st T).get ⟨(rowsFor st T).length - 1, hjj⟩).channel
      ((rowsFor st T).get ⟨(rowsFor st T).length - 1, hjj⟩).ts
      (0 + ((rowsFor st T).length - 1)) (rowsFor st T).length, ?_, ?_, ?_, ?_⟩
  · simp only [get_entry_data, if_neg hnonempty]
    rw [getLastD_eq_get _ _ hlt]
    simp only [hidx]
    rw [List.get_of_eq hchar, annotate_get (rowsFor st T).length 0 (rowsFor st T)
      ((rowsFor st T).length - 1) hjj]
  · rw [getLastD_eq_get (rowsFor st T) default (length_sub_one_lt hne)]
  · exact Nat.zero_add _
  · rfl

/-! ## C2 -/

/-- C2: when the define handler parses `rest` into a term `e` and a proposed
definition `d` (surviving the help, colon, `'::'`, and punctuation guards),
and the chronologically latest stored definition of `e` equals `d` exactly,
the handler answers with the "already the current definition" message and
leaves the store — in particular the history length of `e` — unchanged. -/
theorem C2_define_identical_definition_no_op (st : Store) (rest nick : String)
    (channel : Option String) (now : Nat) (e d : String)
    (hWF : WFRows st) (hsort : List.Sorted tsLe st.rows)
    (hhelp : pyLower (pyStrip rest) ≠ "help")
    (hcolon : (pyStrip rest).data.contains ':' = true)
    (hdc : containsSub "::".data (pyStrip rest).data = false)
    (he : pyStrip (firstColonSplit (pyStrip rest)).1 = e)
    (hd : pyStrip (firstColonSplit (pyStrip rest)).2 = d)
    (hpunct : e.data.find? (fun c => pyPunctuation.contains c) = none)
    (hne : rowsFor st e ≠ [])
    (hlast : ((rowsFor st e).getLastD default).definition = d) :
    define st rest nick channel now = (.ok noChangeMsg, st) := by
  have hT := wildcardFree_of_no_punct hpunct
  obtain ⟨rec, hrec, hdef, _, _⟩ := get_entry_data_none_eq_last hWF hT hsort hne
  simp only [define, he, hd, hpunct, hrec]
  rw [if_neg (fun h => hhelp (by rwa [beq_iff_eq] at h))]
  rw [if_neg (by rw [hcolon]; decide)]
  rw [if_neg (by rw [hdc]; decide)]
  rw [if_pos (by rw [hdef, hlast]; exact beq_self_eq_true d)]

/-- C2, witnessed: redefining `fish` with its current definition "dinner" is
rejected and the two-row store is unchanged. -/
theorem C2_define_identical_definition_no_op_witness :
    define fishStore "fish: dinner" "bob" none 300 = (.ok noChangeMsg, fishStore) :=
  C2_define_identical_definition_no_op fishStore "fish: dinner" "bob" none 300
    "fish" "dinner" (by unfold WFRows; decide) (by decide) (by decide) (by decide)
    (by decide) (by decide) (by decide) (by decide) (by decide) (by decide)

/-! ## C3 support: membership in the recomputed all-records list -/

theorem mem_groupKeys {rows : List Row} {k : String} :
    k ∈ groupKeys rows ↔ ∃ r ∈ rows, r.entry_lower = k := by
  unfold groupKeys
  rw [List.mem_dedup, List.mem_map]

theorem groupRecord_spec {rows : List Row} {k : String}
    (h : ∃ r ∈ rows, r.entry_lower = k) :
    (groupRecord rows k).entry_lower = k ∧
    ∃ r ∈ rows, (groupRecord rows k).entry = r.entry ∧ r.entry_lower = k := by
  obtain ⟨r0, hr0, hk⟩ := h
  have hne : rows.filter (fun r => r.entry_lower == k) ≠ [] := by
    intro hnil
    have hmem : r0 ∈ rows.filter (fun r => r.entry_lower == k) := by
      rw [List.mem_filter]
      exact ⟨hr0, by simp [hk]⟩
    rw [hnil] at hmem
    cases hmem
  have hrep := getLastD_mem (rows.filter (fun r => r.entry_lower == k)) default hne
  rw [List.mem_filter] at hrep
  have hlow : ((rows.filter (fun r => r.entry_lower == k)).getLastD default).entry_lower
      = k := by
    have := hrep.2
    rwa [beq_iff_eq] at this
  exact ⟨hlow, _, hrep.1, rfl, hlow⟩

theorem computeAllRecords_mem_entry_lower {rows : List Row} {k : String} :
    (∃ rec ∈ computeAllRecords rows, rec.entry_lower = k)
      ↔ ∃ r ∈ rows, r.entry_lower = k := by
  unfold computeAllRecords
  constructor
  · rintro ⟨rec, hrec, rfl⟩
    rw [List.mem_insertionSort, List.mem_map] at hrec
    obtain ⟨k0, hk0, rfl⟩ := hrec
    have hx := mem_groupKeys.1 hk0
    rw [(groupRecord_spec hx).1]
    exact hx
  · intro hx
    refine ⟨groupRecord rows k, ?_, (groupRecord_spec hx).1⟩
    rw [List.mem_insertionSort, List.mem_map]
    exact ⟨k, mem_groupKeys.2 hx, rfl⟩

/-! ## C3 -/

/-- C3: after any `add_entry`, the all-records read path — run on the store
state `add_entry` leaves behind, whatever cache snapshot was held before the
write — contains a record for the newly written term and one for every
previously stored row's term: the cache is busted by the write, so the
memoized list can never be a snapshot predating it. -/
theorem C3_no_stale_snapshot_after_add (st : Store) (entry definition author : String)
    (channel : Option String) (now : Nat) :
    (∃ rec ∈ (get_all_records (add_entry st entry definition author channel now).2).1,
        rec.entry_lower = pyLower entry) ∧
    (∀ r ∈ st.rows,
      ∃ rec ∈ (get_all_records (add_entry st entry definition author channel now).2).1,
        rec.entry_lower = r.entry_lower) := by
  have hread : (get_all_records (add_entry st entry definition author channel now).2).1
      = computeAllRecords
          (st.rows ++ [Row.mk entry (pyLower entry) definition author channel now]) := rfl
  rw [hread]
  constructor
  · exact computeAllRecords_mem_entry_lower.2
      ⟨Row.mk entry (pyLower entry) definition author channel now, by simp, rfl⟩
  · intro r hr
    exact computeAllRecords_mem_entry_lower.2 ⟨r, by simp [hr], rfl⟩

/-! ## C9 -/

/-- A store holding the single term `ab`. -/
def abStore : Store :=
  Store.mk [Row.mk "ab" "ab" "a definition" "alice" none 1] none

/-- C9: the history lookup runs the user-supplied term through SQL `LIKE`
unescaped, so the query `a_` — which equals no stored term under
case-insensitive comparison (`rowsFor abStore "a_" = []`) — nevertheless
returns the record of the unrelated term `ab`, because the `_` wildcard
matches any single character.  This contradicts the claimed "exactly the
records whose term equals t case-insensitively". -/
theorem C9_like_wildcard_leak :
    get_all_records_for_entry abStore "a_"
      = [GlossaryRecord.mk "ab" "ab" "a definition" "alice" none 1 0 1] ∧
    pyLower "a_" ≠ pyLower "ab" ∧
    rowsFor abStore "a_" = [] :=
  ⟨by decide, by decide, by decide⟩

/-! ## C10 -/

/-- C10 (amended, first half): whenever the stripped argument text equals
`help` case-insensitively, each of the three handlers returns the
documentation string and leaves the store untouched. -/
theorem C10_help_shortcircuit (st : Store) (rest nick : String)
    (channel : Option String) (now rand : Nat)
    (h : pyLower (pyStrip rest) = "help") :
    define st rest nick channel now = (.ok DOCS_STR, st) ∧
    query st rest now rand = (DOCS_STR, st) ∧
    search st rest = (DOCS_STR, st) := by
  have hb : (pyLower (pyStrip rest) == "help") = true := by
    rw [beq_iff_eq]
    exact h
  refine ⟨?_, ?_, ?_⟩
  · simp only [define, if_pos hb]
  · simp only [query, entry_number_command, if_pos hb]
  · simp only [search, entry_number_command, if_pos hb]

/-- C10, witnessed at `" HELP "` on the empty store. -/
theorem C10_help_shortcircuit_witness :
    define (Store.mk [] none) " HELP " "alice" none 5
        = (.ok DOCS_STR, Store.mk [] none) ∧
    query (Store.mk [] none) " HELP " 5 0 = (DOCS_STR, Store.mk [] none) ∧
    search (Store.mk [] none) " HELP " = (DOCS_STR, Store.mk [] none) :=
  C10_help_shortcircuit (Store.mk [] none) " HELP " "alice" none 5 0 (by decide)

/-- C10 counterexample: the claim's consequence fails — the argument
`help: a helpful thing` does not equal `help` after stripping, so the define
handler happily stores a term literally named "help", and `help: 1` retrieves
it through the lookup handler. -/
theorem C10_help_definable_counterexample :
    (define (Store.mk [] none) "help: a helpful thing" "alice" none 5).1
      = .ok (addDefinitionResult "help" "a helpful thing") ∧
    ((define (Store.mk [] none) "help: a helpful thing" "alice" none 5).2).rows
      = [Row.mk "help" "help" "a helpful thing" "alice" none 5] ∧
    (query ((define (Store.mk [] none) "help: a helpful thing" "alice" none 5).2)
        "help: 1" 5 0).1
      = queryResultMsg "help" 1 1 "a helpful thing" "alice" "just now" "" :=
  ⟨rfl, by decide, by decide⟩

/-! ## C5 -/

/-- C5: the lookup command's parser splits on a colon, not on whitespace, so
the argument text `fish 1` is treated as one six-character term: on the store
where `fish` has the two definitions "a swimmy thing" (v1) and "dinner" (v2),
the handler answers with the undefined-term message (plus the `fish`
suggestion) instead of the claimed version-1-of-2 result — which the
colon-separated `fish: 1` does produce.  The repository's own tests
(`tests.py` exercises `fish 0` / `fish 1` / `fish 2` / `fish 3` with spaces)
and its help string `!whatis <entry> [<num>]` expect the space-separated
shape, so the code diverges from its own documentation and tests here. -/
theorem C5_space_version_lookup_divergence :
    (query fishStore "fish 1" 160 0).1
      = undefinedMsg "fish 1" ++ " May I interest you in fish?" ∧
    (query fishStore "fish 1" 160 0).1
      ≠ queryResultMsg "fish" 1 2 "a swimmy thing" "alice" "1 minute ago" "" ∧
    (query fishStore "fish: 1" 160 0).1
      = queryResultMsg "fish" 1 2 "a swimmy thing" "alice" "1 minute ago" "" :=
  ⟨by decide, by decide, by decide⟩

/-! ## C6 support: cache-coherent reads and the suggestion set -/

/-- The pure value of `get_similar_words` on a cache-coherent store. -/
def simList (rows : List Row) (w : String) : List String :=
  ((computeAllRecords rows).filter
    (fun e => containsSub (pyLower w).data e.entry_lower.data)).map (fun e => e.entry)

theorem get_all_records_cacheOK {st : Store} (h : cacheOK st) :
    (get_all_records st).1 = computeAllRecords st.rows
      ∧ (get_all_records st).2.rows = st.rows
      ∧ cacheOK (get_all_records st).2 := by
  cases h with
  | inl h0 =>
    refine ⟨?_, ?_, ?_⟩ <;> simp only [get_all_records, h0]
    exact Or.inr rfl
  | inr h1 =>
    refine ⟨?_, ?_, ?_⟩ <;> simp only [get_all_records, h1]
    exact Or.inr h1

theorem get_similar_words_cacheOK {st : Store} (h : cacheOK st) (w : String) :
    (get_similar_words st w).1 = simList st.rows w
      ∧ (get_similar_words st w).2.rows = st.rows
      ∧ cacheOK (get_similar_words st w).2 := by
  obtain ⟨h1, h2, h3⟩ := get_all_records_cacheOK h
  rcases hga : get_all_records st with ⟨l, st2⟩
  rw [hga] at h1 h2 h3
  simp only at h1 h2 h3
  refine ⟨?_, ?_, ?_⟩ <;> simp only [get_similar_words, hga, simList, h1, h2]
  exact h3

theorem sugg_foldl (rows : List Row) :
    ∀ (ws : List String) (acc : List String) (st0 : Store),
      st0.rows = rows → cacheOK st0 →
      (ws.foldl (fun acc w =>
          let (similar, st') := get_similar_words acc.2 w
          (acc.1 ++ similar, st')) (acc, st0)).1
        = acc ++ (ws.map (fun w => simList rows w)).flatten := by
  intro ws
  induction ws with
  | nil =>
    intro acc st0 h1 h2
    simp
  | cons w ws ih =>
    intro acc st0 h1 h2
    obtain ⟨hs1, hs2, hs3⟩ := get_similar_words_cacheOK h2 w
    rcases hgw : get_similar_words st0 w with ⟨sim, st1⟩
    rw [hgw] at hs1 hs2 hs3
    simp only at hs1 hs2 hs3
    simp only [List.foldl_cons, hgw]
    rw [ih (acc ++ sim) st1 (by rw [hs2, h1]) hs3]
    rw [hs1, h1]
    simp [List.append_assoc]

/-- Membership in the suggestion set of a cache-coherent store: some query
word finds the term by substring match. -/
theorem suggestions_mem {st : Store} (h : cacheOK st) (entry t : String) :
    t ∈ (get_alternative_suggestions st entry).1
      ↔ ∃ w ∈ queryWords entry, t ∈ simList st.rows w := by
  simp only [get_alternative_suggestions]
  rw [sugg_foldl st.rows (queryWords entry) [] st rfl h]
  rw [List.mem_dedup, List.nil_append, List.mem_flatten]
  constructor
  · rintro ⟨l, hl, ht⟩
    rw [List.mem_map] at hl
    obtain ⟨w, hw, rfl⟩ := hl
    exact ⟨w, hw, ht⟩
  · rintro ⟨w, hw, ht⟩
    exact ⟨simList st.rows w, List.mem_map.2 ⟨w, hw, rfl⟩, ht⟩

theorem simList_pyLower (rows : List Row) (w : String) :
    simList rows (pyLower w) = simList rows w := by
  simp [simList, pyLower_idem]

theorem simList_append_subset (rows : List Row) (x y : String) {t : String}
    (h : t ∈ simList rows (x ++ y)) : t ∈ simList rows x := by
  simp only [simList, List.mem_map, List.mem_filter] at h ⊢
  obtain ⟨e, ⟨he, hcont⟩, rfl⟩ := h
  refine ⟨e, ⟨he, ?_⟩, rfl⟩
  rw [pyLower_append] at hcont
  exact containsSub_of_append_right (by rwa [String.data_append] at hcont)

/-! ## C6 support: query fragments of a two-fragment term -/

/-- A delimiter-free, whitespace-free fragment. -/
def cleanFrag (s : String) : Prop :=
  s.data.all (fun c => !(pyIsSpace c) && !(c == '-') && !(c == '_')) = true

instance : DecidablePred cleanFrag := fun s =>
  inferInstanceAs
    (Decidable (s.data.all (fun c => !(pyIsSpace c) && !(c == '-') && !(c == '_')) = true))

theorem cleanFrag_not_space {a : String} (ha : cleanFrag a) :
    ∀ c ∈ a.data, pyIsSpace c = false := by
  intro c hc
  have := List.all_eq_true.1 ha c hc
  rw [Bool.and_eq_true, Bool.and_eq_true] at this
  have h1 := this.1.1
  rwa [Bool.not_eq_true'] at h1

theorem cleanFrag_not_mem_delim {a : String} (ha : cleanFrag a) {d : Char}
    (hd : d = ' ' ∨ d = '-' ∨ d = '_') : d ∉ a.data := by
  intro hmem
  have := List.all_eq_true.1 ha d hmem
  rw [Bool.and_eq_true, Bool.and_eq_true] at this
  rcases hd with rfl | rfl | rfl
  · have h1 := this.1.1
    rw [Bool.not_eq_true'] at h1
    simp [pyIsSpace] at h1
  · have h1 := this.1.2
    simp at h1
  · have h1 := this.2
    simp at h1

theorem dropWhile_eq_self_of_head {l : List Char}
    (h : ∀ c, l.head? = some c → pyIsSpace c = false) :
    l.dropWhile pyIsSpace = l := by
  cases l with
  | nil => rfl
  | cons x xs =>
    rw [List.dropWhile_cons_of_neg]
    simp [h x rfl]

theorem pyStripList_of_ends {l : List Char}
    (h1 : ∀ c, l.head? = some c → pyIsSpace c = false)
    (h2 : ∀ c, l.getLast? = some c → pyIsSpace c = false) :
    pyStripList l = l := by
  unfold pyStripList
  rw [dropWhile_eq_self_of_head h1, dropWhile_eq_self_of_head (by
    intro c hc
    rw [List.head?_reverse] at hc
    exact h2 c hc), List.reverse_reverse]

theorem pyStrip_of_cleanFrag {a : String} (ha : cleanFrag a) : pyStrip a = a := by
  unfold pyStrip
  rw [pyStripList_eq_self (cleanFrag_not_space ha)]

theorem data_ne_nil {a : String} (h : a ≠ "") : a.data ≠ [] :=
  fun hd => h (String.ext hd)

theorem glue_data (a b : String) (d : Char) :
    (a ++ String.singleton d ++ b).data = a.data ++ d :: b.data := by
  rw [String.data_append, String.data_append, List.append_assoc]
  rfl

theorem pyStrip_glue {a b : String} {d : Char} (ha : cleanFrag a) (hb : cleanFrag b)
    (hna : a ≠ "") (hnb : b ≠ "") :
    pyStrip (a ++ String.singleton d ++ b) = a ++ String.singleton d ++ b := by
  unfold pyStrip
  rw [glue_data]
  rw [pyStripList_of_ends]
  · rw [← glue_data]
  · intro c hc
    cases hd : a.data with
    | nil => cases data_ne_nil hna hd
    | cons x xs =>
      rw [hd, List.cons_append, List.head?_cons, Option.some.injEq] at hc
      rw [← hc]
      exact cleanFrag_not_space ha x (by rw [hd]; exact List.mem_cons_self _ _)
  · intro c hc
    have hbl : b.data ≠ [] := data_ne_nil hnb
    rw [List.getLast?_append, List.getLast?_eq_getLast (d :: b.data) (by simp)] at hc
    have hc2 : (d :: b.data).getLast (by simp) = c := Option.some.inj hc
    rw [← hc2, List.getLast_cons hbl]
    exact cleanFrag_not_space hb _ (List.getLast_mem hbl)

theorem mem_queryWords {entry w : String} :
    w ∈ queryWords entry ↔
      ∃ d ∈ ([' ', '-', '_'] : List Char), ∃ p ∈ pySplit entry d,
        w = pyLower (pyStrip p) := by
  unfold queryWords
  rw [List.mem_dedup, List.mem_flatten]
  constructor
  · rintro ⟨l, hl, hw⟩
    rw [List.mem_map] at hl
    obtain ⟨d, hd, rfl⟩ := hl
    rw [List.mem_map] at hw
    obtain ⟨p, hp, rfl⟩ := hw
    exact ⟨d, hd, p, hp, rfl⟩
  · rintro ⟨d, hd, p, hp, rfl⟩
    exact ⟨_, List.mem_map.2 ⟨d, hd, rfl⟩, List.mem_map.2 ⟨p, hp, rfl⟩⟩

theorem pySplit_glue_eq {a b : String} {d : Char} (hda : d ∉ a.data)
    (hdb : d ∉ b.data) :
    pySplit (a ++ String.singleton d ++ b) d = [a, b] := by
  unfold pySplit
  rw [glue_data, splitChar_append hda, splitChar_of_not_mem hdb]
  rfl

theorem pySplit_no_delim {g : String} {e : Char} (he : e ∉ g.data) :
    pySplit g e = [g] := by
  unfold pySplit
  rw [splitChar_of_not_mem he]
  rfl

theorem queryWords_glue_sub {a b : String} {d : Char}
    (hd : d = ' ' ∨ d = '-' ∨ d = '_')
    (ha : cleanFrag a) (hb : cleanFrag b) (hna : a ≠ "") (hnb : b ≠ "")
    {w : String} (hw : w ∈ queryWords (a ++ String.singleton d ++ b)) :
    w = pyLower a ∨ w = pyLower b
      ∨ w = pyLower (a ++ String.singleton d ++ b) := by
  rw [mem_queryWords] at hw
  obtain ⟨e, he, p, hp, rfl⟩ := hw
  have hdelim : e = ' ' ∨ e = '-' ∨ e = '_' := by
    simpa using he
  by_cases hed : e = d
  · subst hed
    rw [pySplit_glue_eq (cleanFrag_not_mem_delim ha hdelim)
      (cleanFrag_not_mem_delim hb hdelim)] at hp
    have hp' : p = a ∨ p = b := by simpa using hp
    rcases hp' with rfl | rfl
    · exact Or.inl (by rw [pyStrip_of_cleanFrag ha])
    · exact Or.inr (Or.inl (by rw [pyStrip_of_cleanFrag hb]))
  · have hno : e ∉ (a ++ String.singleton d ++ b).data := by
      rw [glue_data]
      intro hmem
      rcases List.mem_append.1 hmem with hmem1 | hmem2
      · exact cleanFrag_not_mem_delim ha hdelim hmem1
      rcases List.mem_cons.1 hmem2 with rfl | hmem3
      · exact hed rfl
      · exact cleanFrag_not_mem_delim hb hdelim hmem3
    rw [pySplit_no_delim hno] at hp
    have hp' : p = a ++ String.singleton d ++ b := by simpa using hp
    subst hp'
    exact Or.inr (Or.inr (by rw [pyStrip_glue ha hb hna hnb]))

theorem queryWords_glue_mem {a b : String} {d : Char}
    (hd : d = ' ' ∨ d = '-' ∨ d = '_')
    (ha : cleanFrag a) (hb : cleanFrag b) :
    pyLower a ∈ queryWords (a ++ String.singleton d ++ b)
      ∧ pyLower b ∈ queryWords (a ++ String.singleton d ++ b) := by
  have hdm : d ∈ ([' ', '-', '_'] : List Char) := by
    rcases hd with rfl | rfl | rfl <;> simp
  have hsplit := pySplit_glue_eq (a := a) (b := b)
    (cleanFrag_not_mem_delim ha hd) (cleanFrag_not_mem_delim hb hd)
  constructor
  · rw [mem_queryWords]
    exact ⟨d, hdm, a, by rw [hsplit]; exact List.mem_cons_self _ _,
      by rw [pyStrip_of_cleanFrag ha]⟩
  · rw [mem_queryWords]
    exact ⟨d, hdm, b, by rw [hsplit]; simp, by rw [pyStrip_of_cleanFrag hb]⟩

/-! ## C6 -/

/-- A store holding the single term `xbx`, whose name contains `b` but none
of the other fragments involved in the counterexample. -/
def xbxStore : Store :=
  Store.mk [Row.mk "xbx" "xbx" "a definition" "alice" none 1] none

/-- C6 counterexample: the suggestion set is not invariant under the choice
of delimiter.  `get_alternative_suggestions` splits the query on each
delimiter separately, so `a-b_c` produces the fragments
`{a-b_c, a, b_c, a-b, c}` — never the bare `b` — while `a b c` produces
`{a b c, a, b, c}`: with the single stored term `xbx`, the query `a b c`
suggests it but `a-b_c` does not. -/
theorem C6_delimiter_asymmetry_counterexample :
    "xbx" ∈ (get_alternative_suggestions xbxStore "a b c").1 ∧
    "xbx" ∉ (get_alternative_suggestions xbxStore "a-b_c").1 :=
  ⟨by decide, by decide⟩

/-- C6 (amended): delimiter invariance does hold for two-fragment queries.
For delimiter-free, whitespace-free, nonempty fragments `a` and `b` and any
two of the three delimiters, the suggestion sets of `a<d1>b` and `a<d2>b`
coincide — both equal the union of the matches of `a` and of `b`, because
every term containing the whole glued query also contains `a`.  (With three
or more fragments the sets can differ, as the counterexample shows, because
splitting happens once per delimiter rather than on all delimiters at once.) -/
theorem C6_two_fragment_delimiter_invariance (st : Store) (a b : String)
    (d1 d2 : Char) (hc : cacheOK st)
    (hd1 : d1 = ' ' ∨ d1 = '-' ∨ d1 = '_') (hd2 : d2 = ' ' ∨ d2 = '-' ∨ d2 = '_')
    (ha : cleanFrag a) (hb : cleanFrag b) (hna : a ≠ "") (hnb : b ≠ "") :
    ∀ t, t ∈ (get_alternative_suggestions st (a ++ String.singleton d1 ++ b)).1
      ↔ t ∈ (get_alternative_suggestions st (a ++ String.singleton d2 ++ b)).1 := by
  intro t
  have key : ∀ d : Char, (d = ' ' ∨ d = '-' ∨ d = '_') →
      (t ∈ (get_alternative_suggestions st (a ++ String.singleton d ++ b)).1
        ↔ (t ∈ simList st.rows a ∨ t ∈ simList st.rows b)) := by
    intro d hd
    rw [suggestions_mem hc]
    constructor
    · rintro ⟨w, hw, ht⟩
      rcases queryWords_glue_sub hd ha hb hna hnb hw with rfl | rfl | rfl
      · exact Or.inl (by rwa [simList_pyLower] at ht)
      · exact Or.inr (by rwa [simList_pyLower] at ht)
      · rw [simList_pyLower] at ht
        refine Or.inl (simList_append_subset st.rows a (String.singleton d ++ b) ?_)
        rwa [← String.append_assoc]
    · rintro (ht | ht)
      · exact ⟨pyLower a, (queryWords_glue_mem hd ha hb).1,
          by rwa [simList_pyLower]⟩
      · exact ⟨pyLower b, (queryWords_glue_mem hd ha hb).2,
          by rwa [simList_pyLower]⟩
  exact (key d1 hd1).trans (key d2 hd2).symm

/-- C6 (amended), witnessed: `fi-sh` and `fi sh` agree on suggesting the
stored term `fish`. -/
theorem C6_two_fragment_delimiter_invariance_witness :
    ("fish" ∈ (get_alternative_suggestions fishStore "fi-sh").1
      ↔ "fish" ∈ (get_alternative_suggestions fishStore "fi sh").1) :=
  C6_two_fragment_delimiter_invariance fishStore "fi" "sh" '-' ' '
    (Or.inl rfl) (by decide) (by decide) (by decide) (by decide)
    (by decide) (by decide) "fish"

/-! ## C4 support -/

theorem mem_search_definitions {st : Store} {q x : String} :
    x ∈ search_definitions st q
      ↔ ∃ r ∈ st.rows, r.entry = x
          ∧ likeMatches ('%' :: (q.data ++ ['%'])) r.definition.data = true := by
  unfold search_definitions
  rw [List.mem_insertionSort, List.mem_dedup, List.mem_map]
  constructor
  · rintro ⟨r, hr, rfl⟩
    rw [List.mem_filter] at hr
    exact ⟨r, hr.1, rfl, hr.2⟩
  · rintro ⟨r, hr, rfl, hlike⟩
    exact ⟨r, List.mem_filter.2 ⟨hr, hlike⟩, rfl⟩

theorem computeAllRecords_entry {rows : List Row} {rec : GlossaryRecord}
    (h : rec ∈ computeAllRecords rows) :
    ∃ r ∈ rows, rec.entry = r.entry ∧ rec.entry_lower = r.entry_lower := by
  unfold computeAllRecords at h
  rw [List.mem_insertionSort, List.mem_map] at h
  obtain ⟨k, hk, rfl⟩ := h
  have hx := mem_groupKeys.1 hk
  obtain ⟨r1, hr1, he, hel⟩ := (groupRecord_spec hx).2
  exact ⟨r1, hr1, he, by rw [(groupRecord_spec hx).1, hel]⟩

theorem mem_simList {rows : List Row} {q t : String} :
    t ∈ simList rows q
      ↔ ∃ rec ∈ computeAllRecords rows, rec.entry = t
          ∧ containsSub (pyLower q).data rec.entry_lower.data = true := by
  unfold simList
  rw [List.mem_map]
  constructor
  · rintro ⟨rec, hrec, rfl⟩
    rw [List.mem_filter] at hrec
    exact ⟨rec, hrec.1, rfl, hrec.2⟩
  · rintro ⟨rec, hrec, rfl, hcont⟩
    exact ⟨rec, List.mem_filter.2 ⟨hrec, hcont⟩, rfl⟩

/-- Case-folded membership in `get_similar_words`' answer: the lowered terms
it reports are exactly the stored `entry_lower`s containing the lowered
query. -/
theorem simList_map_lower_mem {rows : List Row}
    (hWF : ∀ r ∈ rows, r.entry_lower = pyLower r.entry) (q l : String) :
    (∃ x ∈ simList rows q, pyLower x = l)
      ↔ ((∃ r ∈ rows, r.entry_lower = l)
          ∧ containsSub (pyLower q).data l.data = true) := by
  constructor
  · rintro ⟨x, hx, rfl⟩
    rw [mem_simList] at hx
    obtain ⟨rec, hrec, rfl, hcont⟩ := hx
    obtain ⟨r, hr, hent, helo⟩ := computeAllRecords_entry hrec
    have hlow : pyLower rec.entry = rec.entry_lower := by
      rw [hent, ← hWF r hr, helo]
    rw [hlow]
    exact ⟨⟨r, hr, helo.symm⟩, hcont⟩
  · rintro ⟨⟨r, hr, hl⟩, hcont⟩
    obtain ⟨rec, hrec, hrecl⟩ := computeAllRecords_mem_entry_lower.2 ⟨r, hr, hl⟩
    obtain ⟨r2, hr2, hent2, helo2⟩ := computeAllRecords_entry hrec
    refine ⟨rec.entry, ?_, ?_⟩
    · rw [mem_simList]
      exact ⟨rec, hrec, rfl, by rw [hrecl]; exact hcont⟩
    · rw [hent2, ← hWF r2 hr2, ← helo2, hrecl]

/-! ## C4: spec-side definitions (following the claim's words, for the
counterexample) -/

/-- Split on a character class, Python-`split`-style (used only by the
spec-side search definition below). -/
def splitOnPred (p : Char → Bool) : List Char → List (List Char)
  | [] => [[]]
  | x :: xs =>
    if p x then [] :: splitOnPred p xs
    else
      match splitOnPred p xs with
      | [] => [[x]]
      | h :: t => (x :: h) :: t

/-- The claim's "whitespace/hyphen/underscore-delimited fragments" of a
query: split on all three delimiter classes at once. -/
def specFragments (q : String) : List String :=
  (splitOnPred (fun c => pyIsSpace c || c == '-' || c == '_') q.data).map
    (fun l => ⟨l⟩)

/-- One row per stored term (case-insensitive identity), holding its current
(latest) definition — the claim's notion of the store's terms. -/
def specCurrentRows (st : Store) : List Row :=
  (groupKeys st.rows).map (fun k =>
    (sortRowsByTs (st.rows.filter (fun r => r.entry_lower == k))).getLastD default)

/-- The search result set exactly as the C4 claim words it: terms containing
any delimited fragment of the query as a substring, together with terms whose
current definition text contains the raw query, minus terms already captured
by the first part. -/
def specSearchTerms (st : Store) (q : String) : List String :=
  let partA := (specCurrentRows st).filter (fun r =>
    (specFragments q).any (fun f => containsSub (pyLower f).data r.entry_lower.data))
  let partB := (specCurrentRows st).filter (fun r =>
    containsSub q.data r.definition.data
      && !((partA.map (fun r2 => r2.entry_lower)).contains r.entry_lower))
  (partA ++ partB).map (fun r => r.entry)

/-- A term with two historical definitions, whose current definition is
`bar`; only the superseded one contains `foo`. -/
def tStore : Store :=
  Store.mk [Row.mk "t" "t" "foo" "alice" none 1, Row.mk "t" "t" "bar" "alice" none 2]
    none

/-- C4 counterexample, refuting both halves of the claimed union on concrete
stores: (1) the fragment `ab` of the query `ab cd` is a substring of the
stored term `ab`, so the claim's set contains `ab`, but the handler matches
the raw query only and reports no results; (2) for the query `foo` against a
term whose current definition is `bar` (with `foo` only in its history), the
claim's set is empty but the handler reports the term, because
`search_definitions` scans every historical definition row. -/
theorem C4_search_union_counterexample :
    ("ab" ∈ specSearchTerms abStore "ab cd"
      ∧ (searchMatches abStore "ab cd").1 = []
      ∧ (handle_search abStore "ab cd").1 = noResultsMsg) ∧
    (specSearchTerms tStore "foo" = []
      ∧ (searchMatches tStore "foo").1 = ["t"]) :=
  ⟨⟨by decide, by decide, by decide⟩, ⟨by decide, by decide⟩⟩

/-- C4 (amended): up to case folding, the terms the search handler reports
are exactly: the stored terms containing the raw query as a case-insensitive
substring, together with the stored terms one of whose historical definition
rows matches the SQL LIKE pattern `%Q%` (so `%`/`_` in the query act as
wildcards), minus terms already captured by the first part.  Fragments of the
query play no role, and superseded definitions do count. -/
theorem C4_search_union_characterization (st : Store) (q : String)
    (hWF : WFRows st) (hc : cacheOK st) :
    ∀ l : String,
      l ∈ (searchMatches st q).1.map pyLower
        ↔ (((∃ r ∈ st.rows, r.entry_lower = l)
              ∧ containsSub (pyLower q).data l.data = true)
           ∨ ((∃ r ∈ st.rows, r.entry_lower = l
                ∧ likeMatches ('%' :: (q.data ++ ['%'])) r.definition.data = true)
              ∧ ¬((∃ r ∈ st.rows, r.entry_lower = l)
                    ∧ containsSub (pyLower q).data l.data = true))) := by
  intro l
  obtain ⟨hs1, hs2, hs3⟩ := get_similar_words_cacheOK hc q
  rcases hgw : get_similar_words st q with ⟨sim, st1⟩
  rw [hgw] at hs1 hs2 hs3
  simp only at hs1 hs2 hs3
  have hA : ∀ x, (x ∈ sim ∧ pyLower x = l)
      → ((∃ r ∈ st.rows, r.entry_lower = l)
          ∧ containsSub (pyLower q).data l.data = true) := by
    rintro x ⟨hx, rfl⟩
    exact (simList_map_lower_mem hWF q (pyLower x)).1 ⟨x, by rwa [hs1] at hx, rfl⟩
  have hA2 : ((∃ r ∈ st.rows, r.entry_lower = l)
      ∧ containsSub (pyLower q).data l.data = true)
      → ∃ x ∈ sim, pyLower x = l := by
    intro h
    rw [hs1]
    exact (simList_map_lower_mem hWF q l).2 h
  have hcontains : ∀ y : String,
      ((sim.dedup.map pyLower).contains y = true ↔ ∃ x ∈ sim, pyLower x = y) := by
    intro y
    rw [List.contains_iff_exists_mem_beq]
    constructor
    · rintro ⟨z, hz, hbeq⟩
      rw [List.mem_map] at hz
      obtain ⟨x, hx, rfl⟩ := hz
      exact ⟨x, List.mem_dedup.1 hx, (beq_iff_eq.1 hbeq).symm⟩
    · rintro ⟨x, hx, rfl⟩
      exact ⟨pyLower x, List.mem_map.2 ⟨x, List.mem_dedup.2 hx, rfl⟩, by simp⟩
  simp only [searchMatches, hgw]
  rw [List.mem_map]
  constructor
  · rintro ⟨x, hx, rfl⟩
    rw [List.mem_insertionSort, List.mem_dedup, List.mem_append] at hx
    rcases hx with hx | hx
    · exact Or.inl (hA x ⟨List.mem_dedup.1 hx, rfl⟩)
    · rw [List.mem_filter] at hx
      obtain ⟨hxs, hxf⟩ := hx
      rw [mem_search_definitions] at hxs
      obtain ⟨r, hr, rfl, hlike⟩ := hxs
      rw [hs2] at hr
      refine Or.inr ⟨⟨r, hr, by rw [← hWF r hr], hlike⟩, ?_⟩
      intro hAl
      obtain ⟨x2, hx2, hx2l⟩ := hA2 hAl
      have hc2 : ((List.map pyLower sim.dedup).contains (pyLower r.entry)) = true :=
        (hcontains (pyLower r.entry)).2 ⟨x2, hx2, hx2l⟩
      rw [hc2] at hxf
      simp at hxf
  · rintro (hAl | ⟨⟨r, hr, hrl, hlike⟩, hnA⟩)
    · obtain ⟨x, hx, hxl⟩ := hA2 hAl
      exact ⟨x, by
        rw [List.mem_insertionSort, List.mem_dedup, List.mem_append]
        exact Or.inl (List.mem_dedup.2 hx), hxl⟩
    · refine ⟨r.entry, ?_, by rw [← hWF r hr, hrl]⟩
      rw [List.mem_insertionSort, List.mem_dedup, List.mem_append]
      refine Or.inr (List.mem_filter.2 ⟨?_, ?_⟩)
      · rw [mem_search_definitions]
        exact ⟨r, by rw [hs2]; exact hr, rfl, hlike⟩
      · rw [Bool.not_eq_true', Bool.eq_false_iff]
        intro hcon
        obtain ⟨x2, hx2, hx2l⟩ := (hcontains (pyLower r.entry)).1 hcon
        exact hnA (hA x2 ⟨hx2, hx2l.trans (by rw [← hWF r hr]; exact hrl)⟩)

/-- C4 (amended), witnessed on the two-row history store: the lowered term
`t` is reported for the query `foo` through the historical-definition part of
the union. -/
theorem C4_search_union_characterization_witness :
    "t" ∈ (searchMatches tStore "foo").1.map pyLower :=
  (C4_search_union_characterization tStore "foo" (by unfold WFRows; decide)
      (Or.inl rfl) "t").2
    (Or.inr ⟨⟨Row.mk "t" "t" "foo" "alice" none 1, by decide, by decide, by decide⟩,
      by decide⟩)

/-! ## C7 support -/

/-- With no version argument `get_entry_data` cannot raise: the `num < 1`
check is skipped and `stored[-1]` is only reached on a non-empty list. -/
theorem get_entry_data_none_isOk (st : Store) (entry : String) :
    (get_entry_data st entry none).isOk = true := by
  simp only [get_entry_data]
  split <;> rfl

/-- After the insert, `add_entry`'s own lookup always finds the new row (the
freshly written `entry_lower` LIKE-matches itself), so it returns a record. -/
theorem add_entry_ok (st : Store) (entry definition author : String)
    (channel : Option String) (now : Nat) :
    ∃ rec, (add_entry st entry definition author channel now).1
      = .ok (some rec) := by
  simp only [add_entry]
  have hmem : Row.mk entry (pyLower entry) definition author channel now
      ∈ (st.rows ++ [Row.mk entry (pyLower entry) definition author channel now]).filter
          (fun r => likeMatches (pyLower entry).data r.entry_lower.data) :=
    List.mem_filter.2 ⟨by simp, likeMatches_self _⟩
  have hne : (get_all_records_for_entry
      (Store.mk (st.rows ++ [Row.mk entry (pyLower entry) definition author channel now])
        none) entry) ≠ [] := by
    intro hnil
    have hlen := congrArg List.length hnil
    simp only [get_all_records_for_entry, annotate_length, sortRowsByTs,
      List.length_insertionSort, List.length_nil] at hlen
    rw [List.length_eq_zero] at hlen
    rw [hlen] at hmem
    cases hmem
  simp only [get_entry_data]
  rw [if_neg (by rwa [List.isEmpty_iff])]
  exact ⟨_, rfl⟩

/-! ## C7 -/

/-- C7: for every argument string and store state, each handler terminates
with a reply (no modelled exception escapes): the define handler's result is
always `.ok`, and is one of the six specific replies (documentation, generic
parse error, the `'::'` message, a punctuation message, the no-change
message, or the success message); the query and search handlers return a
reply pair by construction, every raise being caught (the out-of-range
`IndexError` is handled inside `handle_nth_definition`). -/
theorem C7_handlers_total (st : Store) (rest nick : String) (channel : Option String)
    (now rand : Nat) :
    ((define st rest nick channel now).1.isOk = true) ∧
    ((define st rest nick channel now).1 = .ok DOCS_STR
      ∨ (define st rest nick channel now).1 = .ok OOPS_STR
      ∨ (define st rest nick channel now).1 = .ok doubleColonMsg
      ∨ (∃ c, (define st rest nick channel now).1 = .ok (punctuationMsg c))
      ∨ (define st rest nick channel now).1 = .ok noChangeMsg
      ∨ (∃ e2 d2, (define st rest nick channel now).1
          = .ok (addDefinitionResult e2 d2))) ∧
    (∃ s st2, query st rest now rand = (s, st2)) ∧
    (∃ s st2, search st rest = (s, st2)) := by
  have hmain : (define st rest nick channel now).1 = .ok DOCS_STR
      ∨ (define st rest nick channel now).1 = .ok OOPS_STR
      ∨ (define st rest nick channel now).1 = .ok doubleColonMsg
      ∨ (∃ c, (define st rest nick channel now).1 = .ok (punctuationMsg c))
      ∨ (define st rest nick channel now).1 = .ok noChangeMsg
      ∨ (∃ e2 d2, (define st rest nick channel now).1
          = .ok (addDefinitionResult e2 d2)) := by
    simp only [define]
    split
    · exact Or.inl rfl
    split
    · exact Or.inr (Or.inl rfl)
    split
    · exact Or.inr (Or.inr (Or.inl rfl))
    split
    · rename_i c heq
      exact Or.inr (Or.inr (Or.inr (Or.inl ⟨c, rfl⟩)))
    rcases hg : get_entry_data st (pyStrip (firstColonSplit (pyStrip rest)).1) none
      with u | existing
    · have hcontra := get_entry_data_none_isOk st
        (pyStrip (firstColonSplit (pyStrip rest)).1)
      rw [hg] at hcontra
      exact Bool.noConfusion hcontra
    · simp only [hg]
      split
      · exact Or.inr (Or.inr (Or.inr (Or.inr (Or.inl rfl))))
      · obtain ⟨rec2, hrec2⟩ := add_entry_ok st
          (pyStrip (firstColonSplit (pyStrip rest)).1)
          (pyStrip (firstColonSplit (pyStrip rest)).2) nick channel now
        rcases hadd : add_entry st (pyStrip (firstColonSplit (pyStrip rest)).1)
            (pyStrip (firstColonSplit (pyStrip rest)).2) nick channel now
          with ⟨res, st2⟩
        rw [hadd] at hrec2
        simp only at hrec2
        simp only [hadd, hrec2]
        exact Or.inr (Or.inr (Or.inr (Or.inr (Or.inr ⟨rec2.entry, rec2.definition, rfl⟩))))
  have hok : (define st rest nick channel now).1.isOk = true := by
    rcases hmain with h | h | h | ⟨c, h⟩ | h | ⟨e2, d2, h⟩ <;> rw [h] <;> rfl
  exact ⟨hok, hmain, ⟨_, _, rfl⟩, ⟨_, _, rfl⟩⟩

end Glossary
